import Mathlib

/-!
# Verification of the sublime-coloraide color engine core

Shallow embedding of the mixing / interpolation / contrast routines of
`st3/coloraide` (files `colors/tools.py`, `colors/hwb.py`, `colors/lab.py`,
`interpolate/linear.py`).  Channel values are modelled as rationals; the
IEEE-NaN "undefined channel" sentinel is modelled as `Option ℚ` with `none`
playing the role of NaN.  Python's float `%` (sign follows the divisor) is
modelled exactly as `a - m * ⌊a / m⌋`.
-/

namespace Coloraide

/-- Python float `%` for a positive modulus: `a - m * ⌊a / m⌋`. -/
def pymod (a m : ℚ) : ℚ := a - m * ⌊a / m⌋

/-- `_ColorTools._mix_channel` (colors/tools.py:47-57):
`return abs(c2 * f1 + c1 * f2 * (1 - f1))`. -/
def mixChannel (c1 c2 f1 f2 : ℚ) : ℚ := |c2 * f1 + c1 * f2 * (1 - f1)|

/-- The hue pre-adjustment step of `_ColorTools._hue_mix_channel`
(colors/tools.py:72-76): after scaling to degrees,
`if abs(c1 % 360 - c2) > 180.0: (c1 += 360) if c1 < c2 else (c2 += 360)`. -/
def hueAdjust (c1 c2 : ℚ) : ℚ × ℚ :=
  if 180 < |pymod c1 360 - c2| then
    if c1 < c2 then (c1 + 360, c2) else (c1, c2 + 360)
  else (c1, c2)

/-- `_ColorTools._hue_mix_channel` (colors/tools.py:59-82).  `none` models a
NaN input; the code returns `0.0` when both inputs are NaN, the raw defined
value when exactly one is NaN, and otherwise scales to degrees, takes the
short-arc adjustment, mixes, re-wraps a value that escaped `[0, 360]` and
rescales. -/
def hueMixChannel (c1 c2 : Option ℚ) (f1 : ℚ) (f2 : ℚ := 1) (scale : ℚ := 360) :
    Option ℚ :=
  match c1, c2 with
  | none, none => some 0
  | none, some b => some b
  | some a, none => some a
  | some a, some b =>
    let p := hueAdjust (a * scale) (b * scale)
    let value := mixChannel p.1 p.2 f1 f2
    let value := if ¬ (0 ≤ value ∧ value ≤ 360) then pymod value 360 else value
    some (value / scale)

/-- `HWB._on_convert` (colors/hwb.py:51-59), restricted to the hue channel:
`if not (0.0 <= self._ch <= 360.0): self._ch = self._ch % 360.0`. -/
def hwbOnConvertHue (h : ℚ) : ℚ :=
  if 0 ≤ h ∧ h ≤ 360 then h else pymod h 360

/-- Modelled from the spec: `util.clamp` / `alg.clamp` (the `util` and
`algebra` modules are not in src).  The spec's error-handling section says an
out-of-range factor is "corrected by clamping at the boundary"; this is the
two-sided clamp used by `mix` and `InterpolatorLinear.interpolate`. -/
def clamp (x lo hi : ℚ) : ℚ := max lo (min x hi)

/-- Modelled from the spec: `alg.lerp` (the `algebra` module is not in src).
"Using linear interpolation between the two points": `a + (b - a) * t`. -/
def lerp (a b t : ℚ) : ℚ := a + (b - a) * t

/-- One channel of `InterpolatorLinear.interpolate` (interpolate/linear.py:
67-97): NaN/NaN gives NaN, one NaN gives the defined side, otherwise the
local factor is eased (`prog`), clamped to `[0,1]` and linearly
interpolated. -/
def interpChannel (a b : Option ℚ) (prog : Option (ℚ → ℚ)) (point : ℚ) :
    Option ℚ :=
  match a, b with
  | none, none => none
  | none, some y => some y
  | some x, none => some x
  | some x, some y =>
    let t := clamp (match prog with | none => point | some f => f point) 0 1
    some (lerp x y t)

/-- `_LAB._mix` (colors/lab.py:104-109): every LAB channel is mixed with
`_mix_channel`. -/
def labMix (coords1 coords2 : ℚ × ℚ × ℚ) (factor : ℚ) (factor2 : ℚ := 1) :
    ℚ × ℚ × ℚ :=
  (mixChannel coords1.1 coords2.1 factor factor2,
   mixChannel coords1.2.1 coords2.2.1 factor factor2,
   mixChannel coords1.2.2 coords2.2.2 factor factor2)

/-- `_ColorTools.mix` (colors/tools.py:180-198) with working space `lab`:
`factor = util.clamp(float(percent), 0.0, 1.0)` followed by `this._mix(...)`. -/
def labMixPercent (coords1 coords2 : ℚ × ℚ × ℚ) (percent : ℚ) : ℚ × ℚ × ℚ :=
  labMix coords1 coords2 (clamp percent 0 1)

/-- `calc_contrast_ratio` (colors/tools.py:10-13):
`(lum1+0.05)/(lum2+0.05) if lum1 > lum2 else (lum2+0.05)/(lum1+0.05)`. -/
def calcContrastRatio (lum1 lum2 : ℚ) : ℚ :=
  if lum2 < lum1 then (lum1 + 1/20) / (lum2 + 1/20)
  else (lum2 + 1/20) / (lum1 + 1/20)

/-- The early-return guard of `_ColorTools.min_contrast`
(colors/tools.py:101): `if target < 1 or ratio >= target: return`. -/
def minContrastEarlyExit (lum1 lum2 target : ℚ) : Prop :=
  target < 1 ∨ target ≤ calcContrastRatio lum1 lum2

instance (lum1 lum2 target : ℚ) : Decidable (minContrastEarlyExit lum1 lum2 target) := by
  unfold minContrastEarlyExit; infer_instance

/-- State of the `min_contrast` bisection loop (colors/tools.py:110-139):
the interval endpoints `min_mix`/`max_mix` and the best values seen. -/
structure BisectState where
  minMix : ℚ
  maxMix : ℚ
  lastLum : ℚ
  lastMix : ℚ
  deriving DecidableEq, Repr

/-- Initial bisection state (colors/tools.py:110-118).  `isDark` selects the
blend direction; both initial intervals have width `1`. -/
def bisectInit (isDark : Bool) : BisectState :=
  if isDark then ⟨0, 1, 1, 1⟩ else ⟨1, 0, 0, 1⟩

/-- One iteration of the `min_contrast` loop body (colors/tools.py:124-139).
`lum` abstracts `temp.luminance()` after mixing at `mid_mix` (the conversion
pipeline it uses lives outside the embedded files); `required` is
`required_lum`. -/
def bisectStep (lum : ℚ → ℚ) (required : ℚ) (isDark : Bool) (s : BisectState) :
    BisectState :=
  let mid := (s.maxMix + s.minMix) / 2
  let l := lum mid
  let s' : BisectState :=
    if required < l then ⟨s.minMix, mid, s.lastLum, s.lastMix⟩
    else ⟨mid, s.maxMix, s.lastLum, s.lastMix⟩
  if (isDark ∧ required ≤ l ∧ l < s.lastLum) ∨
     (¬ isDark ∧ l ≤ required ∧ s.lastLum < l) then
    ⟨s'.minMix, s'.maxMix, l, mid⟩
  else s'

/-- The loop guard (colors/tools.py:123): `abs(min_mix - max_mix) > 0.001`. -/
def bisectGuard (s : BisectState) : Prop := 1/1000 < |s.minMix - s.maxMix|

instance (s : BisectState) : Decidable (bisectGuard s) := by
  unfold bisectGuard; infer_instance

/-- The `while` loop of `min_contrast`, run with explicit fuel: while the
guard holds, apply `bisectStep`. -/
def bisectRun (lum : ℚ → ℚ) (required : ℚ) (isDark : Bool) :
    ℕ → BisectState → BisectState
  | 0, s => s
  | n + 1, s =>
    if bisectGuard s then bisectRun lum required isDark n (bisectStep lum required isDark s)
    else s

/-- A color as `alpha_composite` sees it: a coordinate list plus alpha. -/
structure ColorState where
  coords : List ℚ
  alpha : ℚ
  deriving DecidableEq, Repr

/-- `_ColorTools.alpha_composite` (colors/tools.py:160-178), parametric in the
space's `_mix` method: when `alpha < 1.0` the channels are mixed with the
alphas as factors and the alpha is composited; otherwise nothing changes. -/
def alphaComposite (mixFn : List ℚ → List ℚ → ℚ → ℚ → List ℚ)
    (c background : ColorState) : ColorState :=
  if c.alpha < 1 then
    { coords := mixFn c.coords background.coords c.alpha background.alpha,
      alpha := c.alpha + background.alpha * (1 - c.alpha) }
  else c

/-! ## Helper lemmas -/

theorem pymod_nonneg (a m : ℚ) (hm : 0 < m) : 0 ≤ pymod a m := by
  have h1 : (⌊a / m⌋ : ℚ) ≤ a / m := Int.floor_le _
  have h2 : m * (⌊a / m⌋ : ℚ) ≤ m * (a / m) :=
    mul_le_mul_of_nonneg_left h1 hm.le
  have h3 : m * (a / m) = a := by field_simp
  unfold pymod
  linarith

theorem pymod_lt (a m : ℚ) (hm : 0 < m) : pymod a m < m := by
  have h1 : a / m < (⌊a / m⌋ : ℚ) + 1 := Int.lt_floor_add_one _
  have h2 : m * (a / m) < m * ((⌊a / m⌋ : ℚ) + 1) :=
    (mul_lt_mul_left hm).mpr h1
  have h3 : m * (a / m) = a := by field_simp
  unfold pymod
  nlinarith

theorem pymod_eq_self (a m : ℚ) (h0 : 0 ≤ a) (hlt : a < m) : pymod a m = a := by
  have hm : 0 < m := lt_of_le_of_lt h0 hlt
  have hfl : ⌊a / m⌋ = 0 := by
    rw [Int.floor_eq_zero_iff]
    constructor
    · exact div_nonneg h0 hm.le
    · exact (div_lt_one hm).mpr hlt
  unfold pymod
  rw [hfl]
  push_cast
  ring

/-! ## Claim theorems -/

/-- C1: for every pair of ordinary channel values and factors `f1 ∈ [0,1]`,
`f2`, the pairwise channel mix is `|c2*f1 + c1*f2*(1-f1)|`; with `f2 = 1`,
factor `0` yields the value equivalent to `c1` (its absolute value, per the
formula) and factor `1` yields the value equivalent to `c2`. -/
theorem mix_channel_weighted_blend (c1 c2 f1 f2 : ℚ)
    (hf0 : 0 ≤ f1) (hf1 : f1 ≤ 1) :
    mixChannel c1 c2 f1 f2 = |c2 * f1 + c1 * f2 * (1 - f1)| ∧
    mixChannel c1 c2 0 1 = |c1| ∧
    mixChannel c1 c2 1 f2 = |c2| := by
  refine ⟨rfl, ?_, ?_⟩
  · unfold mixChannel
    norm_num
  · unfold mixChannel
    norm_num

/-- Witness for C1 at `c1 = 3`, `c2 = 5`, `f1 = 1/2`, `f2 = 1`. -/
theorem mix_channel_weighted_blend_witness :
    mixChannel 3 5 (1/2) 1 = |(5:ℚ) * (1/2) + 3 * 1 * (1 - 1/2)| ∧
    mixChannel 3 5 0 1 = |(3:ℚ)| ∧
    mixChannel 3 5 1 1 = |(5:ℚ)| :=
  mix_channel_weighted_blend 3 5 (1/2) 1 (by norm_num) (by norm_num)

/-- C2 counterexample: when both hue inputs carry the undefined marker, the
code returns the defined value `0.0` (scaled hue `some 0`), not an undefined
result, already at factors `f1 = 1/2`, `f2 = 1`. -/
theorem hue_mix_both_nan_counterexample :
    hueMixChannel none none (1/2) 1 360 = some 0 ∧
    (some (0:ℚ) : Option ℚ) ≠ none := by
  exact ⟨rfl, by simp⟩

/-- C2 amended: if both hue inputs are undefined, `_hue_mix_channel` returns
the defined fallback hue `0.0` immediately — independently of the factors and
the scale, so no arithmetic is performed on the undefined values. -/
theorem hue_mix_both_nan_returns_zero (f1 f2 scale : ℚ) :
    hueMixChannel none none f1 f2 scale = some 0 := rfl

/-- C3: for defined hues whose scaled values lie in `[0, 360)`, the
pre-adjustment adds `360` to the smaller hue exactly when the direct angular
distance exceeds `180°`, the adjusted pair always spans an arc of at most
`180°`, and mixing hue `10°` with hue `350°` at factor `1/2` (with
`f2 = 1`) yields `360°` (one full turn), never `180°`. -/
theorem hue_mix_shortest_arc (h1 h2 : ℚ)
    (ha : 0 ≤ h1 * 360) (hb : h1 * 360 < 360)
    (hc : 0 ≤ h2 * 360) (hd : h2 * 360 < 360) :
    (180 < |h1 * 360 - h2 * 360| →
      hueAdjust (h1 * 360) (h2 * 360) =
        if h1 * 360 < h2 * 360 then (h1 * 360 + 360, h2 * 360)
        else (h1 * 360, h2 * 360 + 360)) ∧
    |(hueAdjust (h1 * 360) (h2 * 360)).1 - (hueAdjust (h1 * 360) (h2 * 360)).2| ≤ 180 ∧
    hueMixChannel (some (10/360)) (some (350/360)) (1/2) 1 360 = some 1 ∧
    (1:ℚ) * 360 ≠ 180 := by
  have hmod : pymod (h1 * 360) 360 = h1 * 360 := pymod_eq_self _ _ ha hb
  constructor
  · intro hgt
    unfold hueAdjust
    rw [hmod, if_pos hgt]
  constructor
  · unfold hueAdjust
    rw [hmod]
    by_cases hgt : 180 < |h1 * 360 - h2 * 360|
    · rw [if_pos hgt]
      by_cases hlt : h1 * 360 < h2 * 360
      · rw [if_pos hlt]
        have hgap : 180 < h2 * 360 - h1 * 360 := by
          rw [abs_sub_comm, abs_of_pos (by linarith)] at hgt
          linarith
        simp only []
        rw [abs_le]
        constructor <;> linarith
      · rw [if_neg hlt]
        push_neg at hlt
        have hgap : 180 < h1 * 360 - h2 * 360 := by
          rw [abs_of_nonneg (by linarith)] at hgt
          linarith
        simp only []
        rw [abs_le]
        constructor <;> linarith
    · rw [if_neg hgt]
      push_neg at hgt
      exact hgt
  constructor
  · unfold hueMixChannel hueAdjust mixChannel pymod
    norm_num
  · norm_num

/-- Witness for C3 at `h1 = 10/360`, `h2 = 350/360`. -/
theorem hue_mix_shortest_arc_witness :
    (180 < |(10:ℚ)/360 * 360 - 350/360 * 360| →
      hueAdjust ((10:ℚ)/360 * 360) (350/360 * 360) =
        if (10:ℚ)/360 * 360 < 350/360 * 360 then ((10:ℚ)/360 * 360 + 360, 350/360 * 360)
        else ((10:ℚ)/360 * 360, 350/360 * 360 + 360)) ∧
    |(hueAdjust ((10:ℚ)/360 * 360) (350/360 * 360)).1 -
      (hueAdjust ((10:ℚ)/360 * 360) (350/360 * 360)).2| ≤ 180 ∧
    hueMixChannel (some (10/360)) (some (350/360)) (1/2) 1 360 = some 1 ∧
    (1:ℚ) * 360 ≠ 180 :=
  hue_mix_shortest_arc (10/360) (350/360)
    (by norm_num) (by norm_num) (by norm_num) (by norm_num)

/-- C4 counterexample: the post-conversion hook leaves a hue of exactly
`360°` untouched (`0.0 <= 360.0 <= 360.0` holds, so no reduction happens),
and `360` does not lie in the claimed canonical range `[0, 360)`. -/
theorem hue_range_counterexample :
    hwbOnConvertHue 360 = 360 ∧ ¬ ((360:ℚ) < 360) := by
  constructor
  · unfold hwbOnConvertHue
    norm_num
  · norm_num

/-- C4 amended: every hue produced by the post-conversion hook or by hue
blending with defined inputs lies in the closed range `[0, 360]` degrees
(equivalently `[0, 1]` as a fraction of a turn) — the boundary `360` itself
can be produced, since only values strictly outside `[0, 360]` are reduced
modulo `360`; negative values wrap forward via the modulo, and hues are never
clamped. -/
theorem hue_range_closed (h a b f1 f2 : ℚ) :
    0 ≤ hwbOnConvertHue h ∧ hwbOnConvertHue h ≤ 360 ∧
    (¬ (0 ≤ h ∧ h ≤ 360) → hwbOnConvertHue h = pymod h 360) ∧
    ∃ v, hueMixChannel (some a) (some b) f1 f2 360 = some v ∧ 0 ≤ v ∧ v ≤ 1 := by
  have hmod0 : 0 ≤ pymod h 360 := pymod_nonneg _ _ (by norm_num)
  have hmod1 : pymod h 360 < 360 := pymod_lt _ _ (by norm_num)
  refine ⟨?_, ?_, ?_, ?_⟩
  · unfold hwbOnConvertHue
    by_cases hin : 0 ≤ h ∧ h ≤ 360
    · rw [if_pos hin]; exact hin.1
    · rw [if_neg hin]; exact hmod0
  · unfold hwbOnConvertHue
    by_cases hin : 0 ≤ h ∧ h ≤ 360
    · rw [if_pos hin]; exact hin.2
    · rw [if_neg hin]; linarith
  · intro hout
    unfold hwbOnConvertHue
    rw [if_neg hout]
  · set p := hueAdjust (a * 360) (b * 360) with hp
    set value := mixChannel p.1 p.2 f1 f2 with hv
    have hval0 : 0 ≤ value := abs_nonneg _
    by_cases hin : 0 ≤ value ∧ value ≤ 360
    · refine ⟨value / 360, ?_, by positivity, by linarith [hin.2, (by norm_num :
        (0:ℚ) < 360)]⟩
      show some ((if ¬ (0 ≤ value ∧ value ≤ 360) then pymod value 360 else value) / 360)
          = _
      rw [if_neg (by exact not_not_intro hin)]
    · refine ⟨pymod value 360 / 360, ?_, ?_, ?_⟩
      · show some ((if ¬ (0 ≤ value ∧ value ≤ 360) then pymod value 360 else value) / 360)
            = _
        rw [if_pos hin]
      · have := pymod_nonneg value 360 (by norm_num)
        positivity
      · have := pymod_lt value 360 (by norm_num)
        linarith

/-- Witness for C4 at hue `-30` (wraps forward to `330`) and the blend of
hues `10/360` and `350/360` of a turn at factor `1/2`. -/
theorem hue_range_closed_witness :
    0 ≤ hwbOnConvertHue (-30) ∧ hwbOnConvertHue (-30) ≤ 360 ∧
    hwbOnConvertHue (-30) = pymod (-30) 360 ∧
    ∃ v, hueMixChannel (some (10/360)) (some (350/360)) (1/2) 1 360 = some v ∧
      0 ≤ v ∧ v ≤ 1 :=
  ⟨(hue_range_closed (-30) (10/360) (350/360) (1/2) 1).1,
   (hue_range_closed (-30) (10/360) (350/360) (1/2) 1).2.1,
   (hue_range_closed (-30) (10/360) (350/360) (1/2) 1).2.2.1 (by norm_num),
   (hue_range_closed (-30) (10/360) (350/360) (1/2) 1).2.2.2⟩

/-- C5: when exactly one channel input is undefined, both the pairwise hue
mix and the piecewise linear interpolation return the defined input's value
unchanged, for every factor (and any easing): an achromatic color's undefined
hue never pulls a chromatic partner's hue. -/
theorem undefined_one_side_returns_defined (c f1 f2 scale point : ℚ)
    (prog : Option (ℚ → ℚ)) :
    hueMixChannel none (some c) f1 f2 scale = some c ∧
    hueMixChannel (some c) none f1 f2 scale = some c ∧
    interpChannel none (some c) prog point = some c ∧
    interpChannel (some c) none prog point = some c :=
  ⟨rfl, rfl, rfl, rfl⟩

theorem bisectStep_width (lum : ℚ → ℚ) (required : ℚ) (isDark : Bool)
    (s : BisectState) :
    |(bisectStep lum required isDark s).minMix -
      (bisectStep lum required isDark s).maxMix| =
    |s.minMix - s.maxMix| / 2 := by
  have key1 : ∀ x y : ℚ, |x - (y + x) / 2| = |x - y| / 2 := by
    intro x y
    rw [show x - (y + x) / 2 = (x - y) / 2 by ring, abs_div]
    norm_num
  have key2 : ∀ x y : ℚ, |(y + x) / 2 - y| = |x - y| / 2 := by
    intro x y
    rw [show (y + x) / 2 - y = (x - y) / 2 by ring, abs_div]
    norm_num
  simp only [bisectStep]
  by_cases h1 : (isDark ∧ required ≤ lum ((s.maxMix + s.minMix) / 2) ∧
      lum ((s.maxMix + s.minMix) / 2) < s.lastLum) ∨
      (¬ isDark ∧ lum ((s.maxMix + s.minMix) / 2) ≤ required ∧
      s.lastLum < lum ((s.maxMix + s.minMix) / 2))
  · rw [if_pos h1]
    by_cases h2 : required < lum ((s.maxMix + s.minMix) / 2)
    · rw [if_pos h2]
      exact key1 s.minMix s.maxMix
    · rw [if_neg h2]
      exact key2 s.minMix s.maxMix
  · rw [if_neg h1]
    by_cases h2 : required < lum ((s.maxMix + s.minMix) / 2)
    · rw [if_pos h2]
      exact key1 s.minMix s.maxMix
    · rw [if_neg h2]
      exact key2 s.minMix s.maxMix

theorem bisectRun_succ (lum : ℚ → ℚ) (required : ℚ) (isDark : Bool)
    (n : ℕ) (s : BisectState) :
    bisectRun lum required isDark (n + 1) s =
      if bisectGuard s then
        bisectRun lum required isDark n (bisectStep lum required isDark s)
      else s := rfl

theorem bisectRun_stable (lum : ℚ → ℚ) (required : ℚ) (isDark : Bool)
    (n : ℕ) (s : BisectState) (h : ¬ bisectGuard s) :
    bisectRun lum required isDark n s = s := by
  cases n with
  | zero => rfl
  | succ k => rw [bisectRun_succ, if_neg h]

theorem bisectRun_add (lum : ℚ → ℚ) (required : ℚ) (isDark : Bool)
    (a b : ℕ) (s : BisectState) :
    bisectRun lum required isDark (a + b) s =
      bisectRun lum required isDark b (bisectRun lum required isDark a s) := by
  induction a generalizing s with
  | zero => rw [Nat.zero_add]; rfl
  | succ k ih =>
    rw [show k + 1 + b = (k + b) + 1 by omega, bisectRun_succ, bisectRun_succ]
    by_cases hg : bisectGuard s
    · rw [if_pos hg, if_pos hg, ih]
    · rw [if_neg hg, if_neg hg, bisectRun_stable lum required isDark b s hg]

theorem bisectRun_width (lum : ℚ → ℚ) (required : ℚ) (isDark : Bool) :
    ∀ n : ℕ, n ≤ 10 →
      |(bisectRun lum required isDark n (bisectInit isDark)).minMix -
        (bisectRun lum required isDark n (bisectInit isDark)).maxMix| = 1 / 2 ^ n := by
  intro n
  induction n with
  | zero =>
    intro _
    cases isDark <;> norm_num [bisectRun, bisectInit]
  | succ k ih =>
    intro hk10
    have hw := ih (by omega)
    have hguard : bisectGuard (bisectRun lum required isDark k (bisectInit isDark)) := by
      unfold bisectGuard
      rw [hw, div_lt_div_iff (by norm_num) (by positivity)]
      have h2 : (2:ℚ) ^ k ≤ 2 ^ 9 := by
        apply pow_le_pow_right (by norm_num)
        omega
      nlinarith
    rw [bisectRun_add lum required isDark k 1, bisectRun_succ, if_pos hguard]
    have hzero : bisectRun lum required isDark 0
        (bisectStep lum required isDark (bisectRun lum required isDark k (bisectInit isDark))) =
        bisectStep lum required isDark (bisectRun lum required isDark k (bisectInit isDark)) := rfl
    rw [hzero, bisectStep_width, hw, pow_succ]
    ring

/-- C7: the `min_contrast` bisection always terminates.  The step function
halves the interval width exactly; starting from the `[0,1]` interval (width
`1`, either direction) the width after `n ≤ 10` iterations is `1/2^n`, the
guard `|min_mix - max_mix| > 0.001` still holds after `9` iterations and
fails after `10`, so the loop runs exactly `10` iterations and any larger
fuel gives the same (deterministic) final state — for every luminance oracle
and target. -/
theorem min_contrast_bisection_terminates (lum : ℚ → ℚ) (required : ℚ)
    (isDark : Bool) :
    (∀ s : BisectState,
      |(bisectStep lum required isDark s).minMix -
        (bisectStep lum required isDark s).maxMix| =
      |s.minMix - s.maxMix| / 2) ∧
    (∀ n : ℕ, n ≤ 10 →
      |(bisectRun lum required isDark n (bisectInit isDark)).minMix -
        (bisectRun lum required isDark n (bisectInit isDark)).maxMix| = 1 / 2 ^ n) ∧
    bisectGuard (bisectRun lum required isDark 9 (bisectInit isDark)) ∧
    ¬ bisectGuard (bisectRun lum required isDark 10 (bisectInit isDark)) ∧
    (∀ m : ℕ, 10 ≤ m →
      bisectRun lum required isDark m (bisectInit isDark) =
        bisectRun lum required isDark 10 (bisectInit isDark)) := by
  have hnot : ¬ bisectGuard (bisectRun lum required isDark 10 (bisectInit isDark)) := by
    unfold bisectGuard
    rw [bisectRun_width lum required isDark 10 (by norm_num)]
    norm_num
  refine ⟨bisectStep_width lum required isDark, bisectRun_width lum required isDark,
    ?_, hnot, ?_⟩
  · unfold bisectGuard
    rw [bisectRun_width lum required isDark 9 (by norm_num)]
    norm_num
  · intro m hm
    rw [show m = 10 + (m - 10) by omega,
      bisectRun_add lum required isDark 10 (m - 10),
      bisectRun_stable lum required isDark (m - 10) _ hnot]

/-- Witness for C7 with the constant luminance oracle `0`, target `1/2`,
dark direction, at `n = 10` and `m = 15`. -/
theorem min_contrast_bisection_terminates_witness :
    |(bisectRun (fun _ => 0) (1/2) true 10 (bisectInit true)).minMix -
      (bisectRun (fun _ => 0) (1/2) true 10 (bisectInit true)).maxMix| = 1 / 2 ^ 10 ∧
    ¬ bisectGuard (bisectRun (fun _ => 0) (1/2) true 10 (bisectInit true)) ∧
    bisectRun (fun _ => 0) (1/2) true 15 (bisectInit true) =
      bisectRun (fun _ => 0) (1/2) true 10 (bisectInit true) :=
  ⟨(min_contrast_bisection_terminates (fun _ => 0) (1/2) true).2.1 10 (by norm_num),
   (min_contrast_bisection_terminates (fun _ => 0) (1/2) true).2.2.2.1,
   (min_contrast_bisection_terminates (fun _ => 0) (1/2) true).2.2.2.2 15 (by norm_num)⟩

/-- C8: an out-of-range mix/interpolation factor never fails — it is clamped
to the nearest boundary, so the result equals the result at the clamped
factor: for the pairwise `mix` percent (here in the `lab` working space) and
for the (possibly eased) local factor of piecewise linear interpolation. -/
theorem out_of_range_factor_clamped (coords1 coords2 : ℚ × ℚ × ℚ)
    (p x y point : ℚ) (prog : ℚ → ℚ) :
    (1 < p → labMixPercent coords1 coords2 p = labMixPercent coords1 coords2 1) ∧
    (p < 0 → labMixPercent coords1 coords2 p = labMixPercent coords1 coords2 0) ∧
    (1 < point → interpChannel (some x) (some y) none point = some (lerp x y 1)) ∧
    (point < 0 → interpChannel (some x) (some y) none point = some (lerp x y 0)) ∧
    (1 < prog point →
      interpChannel (some x) (some y) (some prog) point = some (lerp x y 1)) ∧
    (prog point < 0 →
      interpChannel (some x) (some y) (some prog) point = some (lerp x y 0)) := by
  have hhi : ∀ t : ℚ, 1 < t → clamp t 0 1 = 1 := by
    intro t ht
    unfold clamp
    rw [min_eq_right ht.le, max_eq_right (by norm_num)]
  have hlo : ∀ t : ℚ, t < 0 → clamp t 0 1 = 0 := by
    intro t ht
    unfold clamp
    rw [min_eq_left (by linarith), max_eq_left ht.le]
  have hone : clamp (1:ℚ) 0 1 = 1 := by
    unfold clamp
    rw [min_eq_right le_rfl, max_eq_right (by norm_num)]
  have hzero : clamp (0:ℚ) 0 1 = 0 := by
    unfold clamp
    rw [min_eq_left (by norm_num), max_eq_left le_rfl]
  refine ⟨?_, ?_, ?_, ?_, ?_, ?_⟩
  · intro hp
    unfold labMixPercent
    rw [hhi p hp, hone]
  · intro hp
    unfold labMixPercent
    rw [hlo p hp, hzero]
  · intro hp
    show some (lerp x y (clamp point 0 1)) = _
    rw [hhi point hp]
  · intro hp
    show some (lerp x y (clamp point 0 1)) = _
    rw [hlo point hp]
  · intro hp
    show some (lerp x y (clamp (prog point) 0 1)) = _
    rw [hhi (prog point) hp]
  · intro hp
    show some (lerp x y (clamp (prog point) 0 1)) = _
    rw [hlo (prog point) hp]

/-- Witness for C8 at percent `2` (clamped to `1`) and point `-1` (clamped
to `0`), with the easing `fun _ => 3` (eased factor clamped to `1`). -/
theorem out_of_range_factor_clamped_witness :
    labMixPercent (1, 2, 3) (4, 5, 6) 2 = labMixPercent (1, 2, 3) (4, 5, 6) 1 ∧
    interpChannel (some 1) (some 2) none (-1) = some (lerp 1 2 0) ∧
    interpChannel (some 1) (some 2) (some (fun _ => 3)) (1/2) = some (lerp 1 2 1) :=
  ⟨(out_of_range_factor_clamped (1, 2, 3) (4, 5, 6) 2 1 2 (-1) (fun _ => 3)).1
      (by norm_num),
   (out_of_range_factor_clamped (1, 2, 3) (4, 5, 6) 2 1 2 (-1) (fun _ => 3)).2.2.2.1
      (by norm_num),
   (out_of_range_factor_clamped (1, 2, 3) (4, 5, 6) 2 1 2 (1/2) (fun _ => 3)).2.2.2.2.1
      (by norm_num)⟩

/-- C9: for non-negative luminances the computed contrast ratio is at least
`1` (the larger luminance plus `0.05` is divided by the smaller plus
`0.05`), so any target below `1` is already met and `min_contrast`'s early
exit fires. -/
theorem contrast_ratio_ge_one (l1 l2 target : ℚ) (h1 : 0 ≤ l1) (h2 : 0 ≤ l2) :
    1 ≤ calcContrastRatio l1 l2 ∧
    (target < 1 → target ≤ calcContrastRatio l1 l2) ∧
    (target < 1 → minContrastEarlyExit l1 l2 target) := by
  have hge : 1 ≤ calcContrastRatio l1 l2 := by
    unfold calcContrastRatio
    by_cases hlt : l2 < l1
    · rw [if_pos hlt]
      rw [le_div_iff (by linarith)]
      linarith
    · rw [if_neg hlt]
      push_neg at hlt
      rw [le_div_iff (by linarith)]
      linarith
  exact ⟨hge, fun ht => le_trans ht.le hge, fun ht => Or.inl ht⟩

/-- Witness for C9 at `l1 = 0`, `l2 = 1/2`, `target = 1/2`. -/
theorem contrast_ratio_ge_one_witness :
    1 ≤ calcContrastRatio 0 (1/2) ∧
    (1:ℚ)/2 ≤ calcContrastRatio 0 (1/2) ∧
    minContrastEarlyExit 0 (1/2) (1/2) :=
  ⟨(contrast_ratio_ge_one 0 (1/2) (1/2) (by norm_num) (by norm_num)).1,
   (contrast_ratio_ge_one 0 (1/2) (1/2) (by norm_num) (by norm_num)).2.1 (by norm_num),
   (contrast_ratio_ge_one 0 (1/2) (1/2) (by norm_num) (by norm_num)).2.2 (by norm_num)⟩

/-- C10: `alpha_composite` is a no-op when the color is fully opaque — if
`alpha` is not below `1`, coordinates and alpha are returned unchanged for
every background and every space `_mix` method; the blend (channels mixed
with the alphas as factors, alpha composited) happens only when `alpha < 1`. -/
theorem alpha_composite_noop (mixFn : List ℚ → List ℚ → ℚ → ℚ → List ℚ)
    (c bg : ColorState) :
    (¬ c.alpha < 1 → alphaComposite mixFn c bg = c) ∧
    (c.alpha < 1 → alphaComposite mixFn c bg =
      ⟨mixFn c.coords bg.coords c.alpha bg.alpha,
       c.alpha + bg.alpha * (1 - c.alpha)⟩) := by
  constructor
  · intro h
    unfold alphaComposite
    rw [if_neg h]
  · intro h
    unfold alphaComposite
    rw [if_pos h]

/-- Witness for C10: an opaque red over a half-transparent background is
unchanged; the half-transparent case blends. -/
theorem alpha_composite_noop_witness :
    alphaComposite (fun a _ _ _ => a) ⟨[1, 0, 0], 1⟩ ⟨[0, 1, 0], 1/2⟩ =
      ⟨[1, 0, 0], 1⟩ ∧
    alphaComposite (fun a _ _ _ => a) ⟨[1, 0, 0], 1/2⟩ ⟨[0, 1, 0], 1⟩ =
      ⟨[1, 0, 0], 1/2 + 1 * (1 - 1/2)⟩ :=
  ⟨(alpha_composite_noop (fun a _ _ _ => a) ⟨[1, 0, 0], 1⟩
      ⟨[0, 1, 0], 1/2⟩).1 (by norm_num),
   (alpha_composite_noop (fun a _ _ _ => a) ⟨[1, 0, 0], 1/2⟩
      ⟨[0, 1, 0], 1⟩).2 (by norm_num)⟩

end Coloraide

